import Mathlib

/-!
Shallow embedding of the TarotTeller interpretation engine
(`client/src/lib/tarotEngine.ts`) and its data model
(`client/src/types/tarot.ts`), with theorems checking the
natural-language specification against the code.

Modelling conventions:
* TypeScript string-union types become inductives (`Arcana`, `Orientation`,
  `ReversalMode`); optional fields become `Option`.
* JavaScript numbers holding position indices are modelled as `Int`
  (so `Math.abs` is `Int.natAbs` of a difference); counts are `Nat`.
* The JS `Map` built by `new Map(allCards.map(c => [c.id, c]))` is modelled
  by a left fold over the catalog in which a later card with the same id
  overwrites an earlier one (`cardMapGet`), exactly the `Map` constructor
  semantics; `Map` iteration order (insertion order) is modelled by the
  association lists built by `tallyKeys`.
* `Array.prototype.sort` with comparator `(a, b) => b - a` is, per the
  ECMAScript specification, a stable sort by descending count; it is
  embedded as the stable insertion sort `sortByCountDesc`.
* Exceptions (`throw new Error(...)`) become `Except String`; the engine
  function `interpretReading` returns `Except String InterpretationResult`.
* The dealer's `Math.random()` draws are modelled by an explicit stream
  `draws : Nat → ℚ` of values in `[0, 1)` supplied as a parameter.
-/

namespace TarotTeller

inductive Arcana where
  | Major
  | Minor
deriving DecidableEq, Repr

inductive Orientation where
  | upright
  | reversed
deriving DecidableEq, Repr

inductive ReversalMode where
  | soft
  | strong
deriving DecidableEq, Repr

/-- `interface TarotCard` from `types/tarot.ts`. -/
structure TarotCard where
  id : String
  name : String
  arcana : Arcana
  suit : Option String := none
  number : Option Int := none
  keywords : List String := []
  uprightShort : String := ""
  uprightLong : String := ""
  reversedShort : String := ""
  reversedLong : String := ""
  imageUrl : Option String := none
deriving DecidableEq, Repr

/-- `interface SpreadPosition` from `types/tarot.ts`. -/
structure SpreadPosition where
  index : Int
  name : String
  roleHint : String := ""
  x : Option Int := none
  y : Option Int := none
deriving DecidableEq, Repr

/-- `interface TarotSpread` from `types/tarot.ts` (layout hints are
layout-only and never read by the engine; they are omitted here). -/
structure TarotSpread where
  id : String
  name : String
  description : Option String := none
  positions : List SpreadPosition
deriving DecidableEq, Repr

/-- `interface PlacedCard` from `types/tarot.ts`. -/
structure PlacedCard where
  cardId : String
  orientation : Orientation
  position : Int
  x : Option Int := none
  y : Option Int := none
deriving DecidableEq, Repr

/-- `interface CombinationRule` from `types/tarot.ts`. -/
structure CombinationRule where
  id : String
  name : String
  cardIds : List String
  condition : String
  modifier : String
  weight : Int
  isActive : Bool
deriving DecidableEq, Repr

/-- `interface InterpretationOptions` from `types/tarot.ts`. -/
structure InterpretationOptions where
  reversalMode : Option ReversalMode := none
deriving DecidableEq, Repr

/-- One entry of `InterpretationResult.positions`. -/
structure PositionEntry where
  slotName : String
  cardId : String
  orientation : Orientation
  interpretationShort : String
  interpretationLong : String
deriving DecidableEq, Repr

/-- `interface InterpretationResult` from `types/tarot.ts`. -/
structure InterpretationResult where
  positions : List PositionEntry
  overallSummary : String
  keywords : List String
  confidenceHints : List String
  suggestedActions : List String
  dominantSuit : Option String
  majorArcanaCount : Nat
  reversedCount : Nat
deriving DecidableEq, Repr

/-- The record returned by `generateOverallAnalysis`. -/
structure Analysis where
  summary : String
  keywords : List String
  confidenceHints : List String
  suggestedActions : List String
  dominantSuit : Option String
  majorArcanaCount : Nat
  reversedCount : Nat
deriving DecidableEq, Repr

/-- The string an `Orientation` interpolates to in template literals. -/
def Orientation.str : Orientation → String
  | .upright => "upright"
  | .reversed => "reversed"

/-- `new Map(allCards.map(c => [c.id, c]))` followed by `.get(k)`:
the fold realises the `Map` constructor, in which a later entry with the
same key overwrites an earlier one. -/
def cardMapGet (allCards : List TarotCard) (k : String) : Option TarotCard :=
  allCards.foldl (fun acc c => if c.id = k then some c else acc) none

/-- `options?.reversalMode || "soft"` (line 24): the mode defaults to
`soft` when `options` or its `reversalMode` field is absent. -/
def resolveReversalMode : Option InterpretationOptions → ReversalMode
  | none => .soft
  | some o => o.reversalMode.getD .soft

/-- `getBaseInterpretation` (lines 62–83); returns the `(short, long)`
pair of meaning texts. -/
def getBaseInterpretation (card : TarotCard) (orientation : Orientation)
    (reversalMode : ReversalMode) : String × String :=
  if orientation = .upright then
    (card.uprightShort, card.uprightLong)
  else if reversalMode = .strong then
    (card.reversedShort, card.reversedLong)
  else
    (card.reversedShort ++ " (blocked or internal)",
     card.reversedLong ++ " The energy of " ++ card.name ++
       " is present but may be blocked, internalized, or manifesting in a subtle way.")

/-- `getPositionModifier` (lines 85–90). -/
def getPositionModifier (position : SpreadPosition) (_card : TarotCard)
    (orientation : Orientation) : String :=
  "As " ++ position.name.toLower ++ ", this energy is " ++
    (if orientation = .reversed then "internal or blocked" else "manifesting externally") ++
    " and suggests " ++ position.roleHint.toLower ++ "."

/-- `getAdjacentCards` (lines 133–140): the placed cards with a different
`cardId` whose position index is within 1 of the current card's. -/
def getAdjacentCards (placedCards : List PlacedCard) (currentCard : PlacedCard)
    (_spread : TarotSpread) : List PlacedCard :=
  placedCards.filter fun card =>
    decide (card.cardId ≠ currentCard.cardId ∧
      (card.position - currentCard.position).natAbs ≤ 1)

/-- `getSuitTheme` (lines 142–150). -/
def getSuitTheme (suit : String) : String :=
  if suit = "wands" then "passion, creativity, and spiritual growth"
  else if suit = "cups" then "emotions, relationships, and intuition"
  else if suit = "swords" then "thoughts, communication, and challenges"
  else if suit = "pentacles" then "material matters, work, and practical concerns"
  else "spiritual and life path themes"

/-- `getAdjacencyInfluence` (lines 92–131). -/
def getAdjacencyInfluence (placedCards : List PlacedCard) (currentCard : PlacedCard)
    (allCards : List TarotCard) (spread : TarotSpread) : String :=
  let adjacentCards := getAdjacentCards placedCards currentCard spread
  let suitInfluence : List String :=
    match (cardMapGet allCards currentCard.cardId).bind (fun c => c.suit) with
    | some s =>
      if 2 ≤ (adjacentCards.filter fun adj =>
          decide ((cardMapGet allCards adj.cardId).bind (fun c => c.suit) = some s)).length then
        ["Strong " ++ s ++ " influence emphasizes " ++ getSuitTheme s ++ "."]
      else []
    | none => []
  let majorInfluence : List String :=
    if 2 ≤ (adjacentCards.filter fun adj =>
        decide ((cardMapGet allCards adj.cardId).map (fun c => c.arcana) = some .Major)).length then
      ["Multiple Major Arcana nearby indicate significant life themes and spiritual lessons."]
    else []
  let reversedInfluence : List String :=
    if 2 ≤ (adjacentCards.filter fun adj => decide (adj.orientation = .reversed)).length then
      ["Surrounded by reversed cards suggests internal work or blocked energies."]
    else []
  String.intercalate " " (suitInfluence ++ majorInfluence ++ reversedInfluence)

/-- `composeShortInterpretation` (lines 276–284). -/
def composeShortInterpretation (position : SpreadPosition) (card : TarotCard)
    (orientation : Orientation) (baseShort : String) (_positionModifier : String) : String :=
  position.name ++ ": " ++ card.name ++ " (" ++ orientation.str ++ ") — " ++ baseShort

/-- `composeLongInterpretation` (lines 286–305); the empty string is the
only falsy string, so the two `if` guards test for `""`. -/
def composeLongInterpretation (position : SpreadPosition) (card : TarotCard)
    (orientation : Orientation) (baseLong : String) (positionModifier : String)
    (adjacencyNotes : String) : String :=
  let i := card.name ++ " in " ++ position.name ++ " (" ++ orientation.str ++ ") — " ++ baseLong
  let i := if positionModifier ≠ "" then i ++ " " ++ positionModifier else i
  if adjacencyNotes ≠ "" then i ++ " " ++ adjacencyNotes else i

/-- One `counts.set(k, (counts.get(k) || 0) + 1)` step on a JS `Map`
represented as an association list in insertion order: an existing key
keeps its place and is incremented, a new key is appended at the end. -/
def bumpCount (m : List (String × Nat)) (k : String) : List (String × Nat) :=
  if m.any (fun p => p.1 == k) then
    m.map (fun p => if p.1 = k then (p.1, p.2 + 1) else p)
  else
    m ++ [(k, 1)]

/-- The occurrence-counting `forEach` loops of `generateOverallAnalysis`
(lines 166–171 and 178–181): a JS `Map` of counts built key by key,
iterated in insertion order (first-encounter order). -/
def tallyKeys (ks : List String) : List (String × Nat) :=
  ks.foldl bumpCount []

/-- Insert an entry into a count-descending list, after every entry of
equal count: the inner step of a stable descending-count sort. -/
def insertByCountDesc (p : String × Nat) : List (String × Nat) → List (String × Nat)
  | [] => [p]
  | q :: qs => if q.2 < p.2 then p :: q :: qs else q :: insertByCountDesc p qs

/-- `[...counts.entries()].sort(([,a],[,b]) => b - a)` (lines 173–174 and
182–183): ECMAScript `Array.prototype.sort` is stable, so with this
comparator it is the stable sort by descending count, realised here as a
left-to-right stable insertion sort. -/
def sortByCountDesc (l : List (String × Nat)) : List (String × Nat) :=
  l.foldl (fun acc p => insertByCountDesc p acc) []

/-- The resolved card list `placedCards.map(pc => cardMap.get(pc.cardId)!)
.filter(Boolean)` (line 157): unresolved ids are dropped. -/
def resolvedCards (placedCards : List PlacedCard) (allCards : List TarotCard) :
    List TarotCard :=
  (placedCards.map (fun pc => cardMapGet allCards pc.cardId)).filterMap id

/-- `generateSummary` (lines 207–228).  The `reversedCount && totalCards &&`
guard makes the reversed-cards clause require both counts to be nonzero;
the comparison `reversedCount >= totalCards / 2` is exact rational
comparison (JS float division is exact here). -/
def generateSummary (majorCount : Nat) (dominantSuit : Option String)
    (reversedCount : Nat) (totalCards : Nat) : String :=
  let s := ""
  let s := if 3 ≤ majorCount then
      s ++ "This reading reveals significant life changes and spiritual themes. "
    else if 1 ≤ majorCount then
      s ++ "Important life lessons and personal growth are highlighted. "
    else s
  let s := match dominantSuit with
    | some suit => s ++ "The focus is on " ++ getSuitTheme suit ++ ". "
    | none => s
  let s := if reversedCount ≠ 0 ∧ totalCards ≠ 0 ∧
      (reversedCount : ℚ) ≥ (totalCards : ℚ) / 2 then
      s ++ "Many reversed cards suggest internal work and reflection are needed. "
    else s
  s ++ "Trust your intuition as you interpret these messages for your path forward."

/-- `generateConfidenceHints` (lines 230–246); `reversedCount &&
reversedCount >= 3` is simply `reversedCount ≥ 3` since `0 ≥ 3` fails. -/
def generateConfidenceHints (majorCount : Nat) (dominantSuit : Option String)
    (reversedCount : Nat) : List String :=
  (if 3 ≤ majorCount then
    [toString majorCount ++
      " Major Arcana cards detected — reading focuses on significant life themes"]
  else []) ++
  (match dominantSuit with
   | some suit =>
     ["Dominant suit: " ++ suit ++ " — interpretation emphasizes " ++ getSuitTheme suit]
   | none => []) ++
  (if 3 ≤ reversedCount then
    [toString reversedCount ++ " reversed cards suggest internal processing or blocked energies"]
  else [])

/-- `generateSuggestedActions` (lines 248–274). -/
def generateSuggestedActions (majorCount : Nat) (dominantSuit : Option String)
    (keywords : List String) : List String :=
  ((if 2 ≤ majorCount then
    ["Pay attention to synchronicities and signs in your daily life"]
  else []) ++
  (if dominantSuit = some "cups" then
    ["Focus on emotional healing and nurturing relationships"]
  else if dominantSuit = some "wands" then
    ["Take inspired action on creative projects and passions"]
  else if dominantSuit = some "swords" then
    ["Practice clear communication and mental clarity"]
  else if dominantSuit = some "pentacles" then
    ["Focus on practical matters and building stable foundations"]
  else []) ++
  (if keywords.contains "balance" then
    ["Seek balance and moderation in all areas of life"]
  else []) ++
  (if keywords.contains "transformation" then
    ["Embrace change as an opportunity for growth"]
  else [])).take 3

/-- `generateOverallAnalysis` (lines 152–205).  `combinationRules` is
received but never read, exactly as in the source. -/
def generateOverallAnalysis (placedCards : List PlacedCard)
    (allCards : List TarotCard) (_combinationRules : List CombinationRule) : Analysis :=
  let cards := resolvedCards placedCards allCards
  let majorArcanaCount := (cards.filter fun c => decide (c.arcana = .Major)).length
  let reversedCount := (placedCards.filter fun pc => decide (pc.orientation = .reversed)).length
  let suitCounts := tallyKeys (cards.filterMap (fun c => c.suit))
  let dominantSuit := ((sortByCountDesc suitCounts).head?).map (fun p => p.1)
  let keywordCounts := tallyKeys (cards.flatMap (fun c => c.keywords))
  let topKeywords := ((sortByCountDesc keywordCounts).take 5).map (fun p => p.1)
  { summary := generateSummary majorArcanaCount dominantSuit reversedCount placedCards.length
    keywords := topKeywords
    confidenceHints := generateConfidenceHints majorArcanaCount dominantSuit reversedCount
    suggestedActions := generateSuggestedActions majorArcanaCount dominantSuit topKeywords
    dominantSuit := dominantSuit
    majorArcanaCount := majorArcanaCount
    reversedCount := reversedCount }

/-- The body of the `placedCards.map(...)` callback of `interpretReading`
(lines 27–45): resolve the card and the spread position (throwing on
failure) and build one `positions` entry. -/
def interpretPosition (spread : TarotSpread) (placedCards : List PlacedCard)
    (allCards : List TarotCard) (reversalMode : ReversalMode)
    (placedCard : PlacedCard) : Except String PositionEntry :=
  match cardMapGet allCards placedCard.cardId with
  | none => .error ("Card not found: " ++ placedCard.cardId)
  | some card =>
    match spread.positions.find? (fun p => p.index == placedCard.position) with
    | none => .error ("Position not found: " ++ toString placedCard.position)
    | some position =>
      let baseInterpretation := getBaseInterpretation card placedCard.orientation reversalMode
      let positionModifier := getPositionModifier position card placedCard.orientation
      let adjacencyNotes := getAdjacencyInfluence placedCards placedCard allCards spread
      .ok
        { slotName := position.name
          cardId := card.id
          orientation := placedCard.orientation
          interpretationShort := composeShortInterpretation position card
            placedCard.orientation baseInterpretation.1 positionModifier
          interpretationLong := composeLongInterpretation position card
            placedCard.orientation baseInterpretation.2 positionModifier adjacencyNotes }

/-- `Array.prototype.map` over a callback that can throw: the first
exception aborts the whole map, and no partial list escapes. -/
def mapExcept (f : α → Except String β) : List α → Except String (List β)
  | [] => .ok []
  | a :: as =>
    match f a with
    | .error e => .error e
    | .ok b =>
      match mapExcept f as with
      | .error e => .error e
      | .ok bs => .ok (b :: bs)

/-- `interpretReading` (lines 15–60). -/
def interpretReading (spread : TarotSpread) (placedCards : List PlacedCard)
    (allCards : List TarotCard) (combinationRules : List CombinationRule)
    (options : Option InterpretationOptions) : Except String InterpretationResult :=
  let reversalMode := resolveReversalMode options
  match mapExcept (interpretPosition spread placedCards allCards reversalMode) placedCards with
  | .error e => .error e
  | .ok positions =>
    let analysis := generateOverallAnalysis placedCards allCards combinationRules
    .ok
      { positions := positions
        overallSummary := analysis.summary
        keywords := analysis.keywords
        confidenceHints := analysis.confidenceHints
        suggestedActions := analysis.suggestedActions
        dominantSuit := analysis.dominantSuit
        majorArcanaCount := analysis.majorArcanaCount
        reversedCount := analysis.reversedCount }

/-- `dealCards` (lines 318–324).  `spread.positions.slice(0,
shuffledCards.length).map((position, index) => ...)` pairs the `index`-th
retained position with `shuffledCards[index]`, which is exactly the zip of
the sliced position list (with its indices) against the card list; the
`Math.random()` draw for entry `index` is `draws index`. -/
def dealCards (shuffledCards : List TarotCard) (spread : TarotSpread)
    (draws : Nat → ℚ) : List PlacedCard :=
  ((spread.positions.take shuffledCards.length).enum.zip shuffledCards).map
    fun ipc =>
      { cardId := ipc.2.id
        orientation := if draws ipc.1.1 > 7 / 10 then .reversed else .upright
        position := ipc.1.2.index }

/-! ### Supporting lemmas about the card map -/

lemma cardMapGet_aux_eq_some (ac : List TarotCard) (k : String) :
    ∀ (acc : Option TarotCard) (c : TarotCard),
      ac.foldl (fun a c => if c.id = k then some c else a) acc = some c →
      (c ∈ ac ∧ c.id = k) ∨ acc = some c := by
  induction ac with
  | nil => intro acc c h; exact Or.inr h
  | cons x xs ih =>
    intro acc c h
    simp only [List.foldl_cons] at h
    rcases ih _ _ h with h1 | h2
    · exact Or.inl ⟨List.mem_cons_of_mem _ h1.1, h1.2⟩
    · by_cases hx : x.id = k
      · simp only [hx, if_pos] at h2
        obtain rfl : x = c := by injection h2
        exact Or.inl ⟨List.mem_cons_self _ _, hx⟩
      · simp only [hx, if_neg, not_false_iff] at h2
        exact Or.inr h2

lemma cardMapGet_eq_some (ac : List TarotCard) (k : String) (c : TarotCard)
    (h : cardMapGet ac k = some c) : c ∈ ac ∧ c.id = k := by
  rcases cardMapGet_aux_eq_some ac k none c h with h1 | h2
  · exact h1
  · cases h2

lemma cardMapGet_aux_isSome (ac : List TarotCard) (k : String) :
    ∀ acc : Option TarotCard,
      (ac.foldl (fun a c => if c.id = k then some c else a) acc).isSome ↔
        acc.isSome ∨ ∃ c ∈ ac, c.id = k := by
  induction ac with
  | nil => intro acc; simp
  | cons x xs ih =>
    intro acc
    simp only [List.foldl_cons, ih]
    by_cases hx : x.id = k
    · simp [hx]
    · simp [hx]

lemma cardMapGet_isSome (ac : List TarotCard) (k : String) :
    (cardMapGet ac k).isSome ↔ ∃ c ∈ ac, c.id = k := by
  unfold cardMapGet
  rw [cardMapGet_aux_isSome]
  simp

lemma cardMapGet_eq_none (ac : List TarotCard) (k : String) :
    cardMapGet ac k = none ↔ ¬∃ c ∈ ac, c.id = k := by
  rw [← cardMapGet_isSome ac k, Option.isSome_iff_exists]
  constructor
  · intro h hc
    rcases hc with ⟨c, hc⟩
    rw [h] at hc
    cases hc
  · intro h
    cases hg : cardMapGet ac k with
    | none => rfl
    | some c => exact absurd ⟨c, hg⟩ h

/-! ### Supporting lemmas about `mapExcept` and `interpretPosition` -/

lemma mapExcept_ok_iff (f : α → Except String β) :
    ∀ l : List α, (∃ bs, mapExcept f l = .ok bs) ↔ ∀ a ∈ l, ∃ b, f a = .ok b := by
  intro l
  induction l with
  | nil => simp [mapExcept]
  | cons a as ih =>
    simp only [mapExcept, List.mem_cons]
    constructor
    · intro ⟨bs, hbs⟩
      cases hfa : f a with
      | error e => rw [hfa] at hbs; cases hbs
      | ok b =>
        rw [hfa] at hbs
        cases hrec : mapExcept f as with
        | error e => rw [hrec] at hbs; cases hbs
        | ok bs' =>
          intro x hx
          rcases hx with rfl | hx
          · exact ⟨b, hfa⟩
          · exact (ih.mp ⟨bs', hrec⟩) x hx
    · intro h
      obtain ⟨b, hb⟩ := h a (Or.inl rfl)
      obtain ⟨bs, hbs⟩ := ih.mpr (fun x hx => h x (Or.inr hx))
      exact ⟨b :: bs, by rw [hb, hbs]⟩

lemma mapExcept_ok_length (f : α → Except String β) :
    ∀ (l : List α) (bs : List β), mapExcept f l = .ok bs → bs.length = l.length := by
  intro l
  induction l with
  | nil => intro bs h; cases h; rfl
  | cons a as ih =>
    intro bs h
    simp only [mapExcept] at h
    cases hfa : f a with
    | error e => rw [hfa] at h; cases h
    | ok b =>
      rw [hfa] at h
      cases hrec : mapExcept f as with
      | error e => rw [hrec] at h; cases h
      | ok bs' =>
        rw [hrec] at h
        cases h
        simp [ih bs' hrec]

lemma mapExcept_ok_get (f : α → Except String β) :
    ∀ (l : List α) (bs : List β), mapExcept f l = .ok bs →
      ∀ (i : Nat) (a : α), l[i]? = some a → ∃ b, bs[i]? = some b ∧ f a = .ok b := by
  intro l
  induction l with
  | nil => intro bs _ i a ha; cases ha
  | cons x xs ih =>
    intro bs h i a ha
    simp only [mapExcept] at h
    cases hfa : f x with
    | error e => rw [hfa] at h; cases h
    | ok b =>
      rw [hfa] at h
      cases hrec : mapExcept f xs with
      | error e => rw [hrec] at h; cases h
      | ok bs' =>
        rw [hrec] at h
        cases h
        cases i with
        | zero =>
          obtain rfl : x = a := by simpa using ha
          exact ⟨b, by simp, hfa⟩
        | succ j =>
          simp only [List.getElem?_cons_succ] at ha ⊢
          exact ih bs' hrec j a ha

lemma interpretPosition_ok_iff (spread : TarotSpread) (pcs : List PlacedCard)
    (ac : List TarotCard) (mode : ReversalMode) (e : PlacedCard) :
    (∃ en, interpretPosition spread pcs ac mode e = .ok en) ↔
      (∃ c ∈ ac, c.id = e.cardId) ∧ (∃ p ∈ spread.positions, p.index = e.position) := by
  unfold interpretPosition
  cases hc : cardMapGet ac e.cardId with
  | none =>
    simp only [false_iff, exists_const]
    constructor
    · intro ⟨en, hen⟩; cases hen
    · intro ⟨h1, _⟩
      exact absurd h1 ((cardMapGet_eq_none ac e.cardId).mp hc)
  | some c =>
    cases hp : spread.positions.find? (fun p => p.index == e.position) with
    | none =>
      constructor
      · intro ⟨en, hen⟩; cases hen
      · intro ⟨_, p, hp2, hp3⟩
        have := (List.find?_eq_none.mp hp) p hp2
        simp [hp3] at this
    | some p =>
      constructor
      · intro _
        refine ⟨⟨c, (cardMapGet_eq_some ac _ c hc).1, (cardMapGet_eq_some ac _ c hc).2⟩,
          ⟨p, List.mem_of_find?_eq_some hp, ?_⟩⟩
        have := List.find?_some hp
        simpa using this
      · intro _
        exact ⟨_, rfl⟩

lemma interpretPosition_ok_spec (spread : TarotSpread) (pcs : List PlacedCard)
    (ac : List TarotCard) (mode : ReversalMode) (e : PlacedCard) (en : PositionEntry)
    (h : interpretPosition spread pcs ac mode e = .ok en) :
    en.cardId = e.cardId ∧ en.orientation = e.orientation ∧
      ∃ p ∈ spread.positions, p.index = e.position ∧ en.slotName = p.name := by
  unfold interpretPosition at h
  cases hc : cardMapGet ac e.cardId with
  | none => rw [hc] at h; cases h
  | some c =>
    rw [hc] at h
    cases hp : spread.positions.find? (fun p => p.index == e.position) with
    | none => rw [hp] at h; cases h
    | some p =>
      rw [hp] at h
      cases h
      refine ⟨(cardMapGet_eq_some ac _ c hc).2, rfl,
        p, List.mem_of_find?_eq_some hp, ?_, rfl⟩
      have := List.find?_some hp
      simpa using this

/-! ### Concrete sample data used by witness theorems -/

def sampleFool : TarotCard :=
  { id := "fool"
    name := "The Fool"
    arcana := .Major
    keywords := ["beginnings", "freedom"]
    uprightShort := "New beginnings"
    uprightLong := "A leap of faith"
    reversedShort := "Recklessness"
    reversedLong := "Hesitation and folly" }

def sampleAceCups : TarotCard :=
  { id := "ace-cups"
    name := "Ace of Cups"
    arcana := .Minor
    suit := some "cups"
    keywords := ["love", "balance"]
    uprightShort := "Overflowing feeling"
    uprightLong := "An opening heart"
    reversedShort := "Blocked feeling"
    reversedLong := "Emotional withdrawal" }

def sampleSpread : TarotSpread :=
  { id := "ppf"
    name := "Past Present Future"
    positions := [ { index := 0, name := "Past", roleHint := "What came before" },
                   { index := 1, name := "Present", roleHint := "Where you are" },
                   { index := 2, name := "Future", roleHint := "What lies ahead" } ] }

def samplePlacedA : PlacedCard :=
  { cardId := "fool", orientation := .upright, position := 0 }

def samplePlacedB : PlacedCard :=
  { cardId := "ace-cups", orientation := .reversed, position := 1 }

/-! ### C2 — failure is atomic and happens exactly on unresolvable entries -/

/-- C2: `interpretReading` returns a result exactly when every placed
card's `cardId` resolves in `allCards` and its `position` matches some
spread position index, and it returns an error (no partial
`InterpretationResult` of any kind) exactly when some entry fails to
resolve. -/
theorem interpretReading_fails_iff (spread : TarotSpread) (placedCards : List PlacedCard)
    (allCards : List TarotCard) (rules : List CombinationRule)
    (options : Option InterpretationOptions) :
    ((∃ r, interpretReading spread placedCards allCards rules options = .ok r) ↔
      ∀ e ∈ placedCards, (∃ c ∈ allCards, c.id = e.cardId) ∧
        (∃ p ∈ spread.positions, p.index = e.position)) ∧
    ((∃ msg, interpretReading spread placedCards allCards rules options = .error msg) ↔
      ∃ e ∈ placedCards, ¬((∃ c ∈ allCards, c.id = e.cardId) ∧
        (∃ p ∈ spread.positions, p.index = e.position))) := by
  have hok : (∃ r, interpretReading spread placedCards allCards rules options = .ok r) ↔
      ∀ e ∈ placedCards, (∃ c ∈ allCards, c.id = e.cardId) ∧
        (∃ p ∈ spread.positions, p.index = e.position) := by
    have hstep : (∃ r, interpretReading spread placedCards allCards rules options = .ok r) ↔
        ∃ bs, mapExcept (interpretPosition spread placedCards allCards
          (resolveReversalMode options)) placedCards = .ok bs := by
      simp only [interpretReading]
      cases hm : mapExcept (interpretPosition spread placedCards allCards
          (resolveReversalMode options)) placedCards with
      | error e => simp
      | ok positions => simp
    rw [hstep, mapExcept_ok_iff]
    constructor
    · intro h e he
      exact (interpretPosition_ok_iff spread placedCards allCards
        (resolveReversalMode options) e).mp (h e he)
    · intro h e he
      exact (interpretPosition_ok_iff spread placedCards allCards
        (resolveReversalMode options) e).mpr (h e he)
  refine ⟨hok, ?_, ?_⟩
  · intro ⟨msg, hmsg⟩
    by_contra hc
    push_neg at hc
    obtain ⟨r, hr⟩ := hok.mpr fun e he => ⟨(hc e he).1, (hc e he).2⟩
    rw [hmsg] at hr
    cases hr
  · intro hex
    cases hi : interpretReading spread placedCards allCards rules options with
    | error msg => exact ⟨msg, rfl⟩
    | ok r =>
      obtain ⟨e, he, hne⟩ := hex
      exact absurd (hok.mp ⟨r, hi⟩ e he) hne

/-- C1: when every placed card resolves, the result's `positions` list has
exactly one entry per placed card, in the same order, carrying that placed
card's `cardId` and `orientation`, and named after a spread position whose
`index` is the placed card's `position`. -/
theorem interpretReading_positions_spec (spread : TarotSpread)
    (placedCards : List PlacedCard) (allCards : List TarotCard)
    (rules : List CombinationRule) (options : Option InterpretationOptions)
    (h : ∀ e ∈ placedCards, (∃ c ∈ allCards, c.id = e.cardId) ∧
      (∃ p ∈ spread.positions, p.index = e.position)) :
    ∃ r, interpretReading spread placedCards allCards rules options = .ok r ∧
      r.positions.length = placedCards.length ∧
      ∀ (i : Nat) (e : PlacedCard), placedCards[i]? = some e →
        ∃ en, r.positions[i]? = some en ∧ en.cardId = e.cardId ∧
          en.orientation = e.orientation ∧
          ∃ p ∈ spread.positions, p.index = e.position ∧ en.slotName = p.name := by
  obtain ⟨r, hr⟩ := (interpretReading_fails_iff spread placedCards allCards
    rules options).1.mpr h
  refine ⟨r, hr, ?_, ?_⟩
  all_goals
    have hbs : ∃ bs, mapExcept (interpretPosition spread placedCards allCards
        (resolveReversalMode options)) placedCards = .ok bs ∧ r.positions = bs := by
      revert hr
      simp only [interpretReading]
      cases hm : mapExcept (interpretPosition spread placedCards allCards
          (resolveReversalMode options)) placedCards with
      | error e => intro hr; cases hr
      | ok positions => intro hr; cases hr; exact ⟨positions, rfl, rfl⟩
  · obtain ⟨bs, hbs1, hbs2⟩ := hbs
    rw [hbs2]
    exact mapExcept_ok_length _ placedCards bs hbs1
  · obtain ⟨bs, hbs1, hbs2⟩ := hbs
    intro i e he
    obtain ⟨en, hen1, hen2⟩ := mapExcept_ok_get _ placedCards bs hbs1 i e he
    obtain ⟨hc, ho, hp⟩ := interpretPosition_ok_spec spread placedCards allCards
      (resolveReversalMode options) e en hen2
    exact ⟨en, by rw [hbs2]; exact hen1, hc, ho, hp⟩

/-- C1 witness: a concrete two-card reading on the sample spread. -/
theorem interpretReading_positions_spec_witness :
    ∃ r, interpretReading sampleSpread [samplePlacedA, samplePlacedB]
        [sampleFool, sampleAceCups] [] none = .ok r ∧
      r.positions.length = [samplePlacedA, samplePlacedB].length ∧
      ∀ (i : Nat) (e : PlacedCard), [samplePlacedA, samplePlacedB][i]? = some e →
        ∃ en, r.positions[i]? = some en ∧ en.cardId = e.cardId ∧
          en.orientation = e.orientation ∧
          ∃ p ∈ sampleSpread.positions, p.index = e.position ∧ en.slotName = p.name :=
  interpretReading_positions_spec sampleSpread [samplePlacedA, samplePlacedB]
    [sampleFool, sampleAceCups] [] none (by decide)

/-- C3: upright readings use the upright texts verbatim; strong reversals
use the reversed texts verbatim; soft reversals (the default mode when
options are absent) append the exact literal suffixes to the reversed
texts. -/
theorem getBaseInterpretation_spec (card : TarotCard) (mode : ReversalMode) :
    getBaseInterpretation card .upright mode = (card.uprightShort, card.uprightLong) ∧
    getBaseInterpretation card .reversed .strong = (card.reversedShort, card.reversedLong) ∧
    getBaseInterpretation card .reversed .soft =
      (card.reversedShort ++ " (blocked or internal)",
       card.reversedLong ++ " The energy of " ++ card.name ++
         " is present but may be blocked, internalized, or manifesting in a subtle way.") ∧
    resolveReversalMode none = .soft ∧
    resolveReversalMode (some { reversalMode := none }) = .soft ∧
    ∀ m, resolveReversalMode (some { reversalMode := some m }) = m :=
  ⟨rfl, rfl, rfl, rfl, rfl, fun _ => rfl⟩

/-- C4: an empty reading succeeds and yields the empty/default aggregates,
with the overall summary consisting of the closing sentence alone. -/
theorem interpretReading_empty_spec (spread : TarotSpread) (allCards : List TarotCard)
    (rules : List CombinationRule) (options : Option InterpretationOptions) :
    interpretReading spread [] allCards rules options = .ok
      { positions := []
        overallSummary :=
          "Trust your intuition as you interpret these messages for your path forward."
        keywords := []
        confidenceHints := []
        suggestedActions := []
        dominantSuit := none
        majorArcanaCount := 0
        reversedCount := 0 } := rfl

/-- C7: membership in `getAdjacentCards` is exactly "different cardId and
position within 1", and for two placed cards at distance ≤ 1 membership in
each other's adjacency sets is symmetric. -/
theorem getAdjacentCards_spec :
    (∀ (placedCards : List PlacedCard) (cur : PlacedCard) (spread : TarotSpread)
      (x : PlacedCard),
      x ∈ getAdjacentCards placedCards cur spread ↔
        x ∈ placedCards ∧ x.cardId ≠ cur.cardId ∧
          (x.position - cur.position).natAbs ≤ 1) ∧
    (∀ (placedCards : List PlacedCard) (spread : TarotSpread) (A B : PlacedCard),
      A ∈ placedCards → B ∈ placedCards →
      (A.position - B.position).natAbs ≤ 1 →
      (A ∈ getAdjacentCards placedCards B spread ↔
        B ∈ getAdjacentCards placedCards A spread)) := by
  have hmem : ∀ (placedCards : List PlacedCard) (cur : PlacedCard) (spread : TarotSpread)
      (x : PlacedCard),
      x ∈ getAdjacentCards placedCards cur spread ↔
        x ∈ placedCards ∧ x.cardId ≠ cur.cardId ∧
          (x.position - cur.position).natAbs ≤ 1 := by
    intro placedCards cur spread x
    simp [getAdjacentCards, List.mem_filter]
  refine ⟨hmem, ?_⟩
  intro placedCards spread A B hA hB _
  rw [hmem, hmem]
  constructor
  · intro ⟨_, hne, hd⟩
    exact ⟨hB, fun hEq => hne hEq.symm, by omega⟩
  · intro ⟨_, hne, hd⟩
    exact ⟨hA, fun hEq => hne hEq.symm, by omega⟩

/-- C7 witness: two concrete placed cards one position apart. -/
theorem getAdjacentCards_spec_witness :
    samplePlacedA ∈ getAdjacentCards [samplePlacedA, samplePlacedB] samplePlacedB
        sampleSpread ↔
      samplePlacedB ∈ getAdjacentCards [samplePlacedA, samplePlacedB] samplePlacedA
        sampleSpread :=
  getAdjacentCards_spec.2 [samplePlacedA, samplePlacedB] sampleSpread
    samplePlacedA samplePlacedB (by decide) (by decide) (by decide)

/-- C8: the combination-rule catalog has no effect whatsoever on the
interpretation result. -/
theorem interpretReading_ignores_rules (spread : TarotSpread)
    (placedCards : List PlacedCard) (allCards : List TarotCard)
    (rules₁ rules₂ : List CombinationRule) (options : Option InterpretationOptions) :
    interpretReading spread placedCards allCards rules₁ options =
      interpretReading spread placedCards allCards rules₂ options := rfl

/-- C10: adjacency excludes any placed card sharing the current card's
`cardId` (comparison is by id, not by entry), so duplicate-id entries never
reach the suit / Major Arcana / reversed clustering counts: the adjacency
influence text is unchanged if all same-id entries are dropped up front. -/
theorem getAdjacentCards_same_id_excluded :
    (∀ (placedCards : List PlacedCard) (cur x : PlacedCard) (spread : TarotSpread),
      x.cardId = cur.cardId → x ∉ getAdjacentCards placedCards cur spread) ∧
    (∀ (placedCards : List PlacedCard) (cur : PlacedCard) (allCards : List TarotCard)
      (spread : TarotSpread),
      getAdjacencyInfluence placedCards cur allCards spread =
        getAdjacencyInfluence
          (placedCards.filter fun x => decide (x.cardId ≠ cur.cardId)) cur
          allCards spread) := by
  have hfilter : ∀ (placedCards : List PlacedCard) (cur : PlacedCard) (spread : TarotSpread),
      getAdjacentCards (placedCards.filter fun x => decide (x.cardId ≠ cur.cardId))
          cur spread = getAdjacentCards placedCards cur spread := by
    intro placedCards cur spread
    unfold getAdjacentCards
    rw [List.filter_filter]
    apply List.filter_congr
    intro x _
    by_cases h : x.cardId = cur.cardId <;> simp [h]
  refine ⟨?_, ?_⟩
  · intro placedCards cur x spread hid hmem
    rw [getAdjacentCards_spec.1] at hmem
    exact hmem.2.1 hid
  · intro placedCards cur allCards spread
    unfold getAdjacencyInfluence
    rw [hfilter]

/-- C10 witness: a duplicate-id entry adjacent to the sample card is
excluded from its adjacency set. -/
theorem getAdjacentCards_same_id_excluded_witness :
    { cardId := "fool", orientation := .reversed, position := 1 } ∉
      getAdjacentCards
        [samplePlacedA, { cardId := "fool", orientation := .reversed, position := 1 }]
        samplePlacedA sampleSpread :=
  getAdjacentCards_same_id_excluded.1
    [samplePlacedA, { cardId := "fool", orientation := .reversed, position := 1 }]
    samplePlacedA { cardId := "fool", orientation := .reversed, position := 1 }
    sampleSpread rfl

/-- C9: the dealer produces exactly `min(cards, positions)` entries, the
`i`-th taking its `cardId` from the `i`-th shuffled card and its
`position` from the `i`-th spread position's own `index`. -/
theorem dealCards_spec (shuffledCards : List TarotCard) (spread : TarotSpread)
    (draws : Nat → ℚ) :
    (dealCards shuffledCards spread draws).length =
      min shuffledCards.length spread.positions.length ∧
    ∀ i : Nat, i < min shuffledCards.length spread.positions.length →
      ((dealCards shuffledCards spread draws)[i]?.map fun p => p.cardId) =
        (shuffledCards[i]?.map fun c => c.id) ∧
      ((dealCards shuffledCards spread draws)[i]?.map fun p => p.position) =
        (spread.positions[i]?.map fun p => p.index) := by
  have hlength : (dealCards shuffledCards spread draws).length =
      min shuffledCards.length spread.positions.length := by
    simp only [dealCards, List.length_map, List.length_zip, List.enum_length,
      List.length_take]
    omega
  refine ⟨hlength, ?_⟩
  intro i hi
  have hic : i < shuffledCards.length := lt_of_lt_of_le hi (min_le_left _ _)
  have hip : i < spread.positions.length := lt_of_lt_of_le hi (min_le_right _ _)
  have hc := List.getElem?_eq_getElem hic
  have hp := List.getElem?_eq_getElem hip
  have htake : (spread.positions.take shuffledCards.length)[i]? =
      some spread.positions[i] := by
    rw [List.getElem?_take]
    simp [hic, hp]
  have henum : (spread.positions.take shuffledCards.length).enum[i]? =
      some (i, spread.positions[i]) := by
    rw [List.getElem?_enum, htake]
    rfl
  have hzip : ((spread.positions.take shuffledCards.length).enum.zip shuffledCards)[i]? =
      some ((i, spread.positions[i]), shuffledCards[i]) := by
    simp [List.zip_eq_zipWith, List.getElem?_zipWith, henum, hc]
  constructor
  · simp [dealCards, List.getElem?_map, hzip, hc]
  · simp [dealCards, List.getElem?_map, hzip, hp]

/-- C9 witness: dealing two cards onto the three-position sample spread. -/
theorem dealCards_spec_witness :
    ((dealCards [sampleFool, sampleAceCups] sampleSpread (fun _ => 0))[0]?.map
        fun p => p.cardId) =
      (([sampleFool, sampleAceCups] : List TarotCard)[0]?.map fun c => c.id) ∧
    ((dealCards [sampleFool, sampleAceCups] sampleSpread (fun _ => 0))[0]?.map
        fun p => p.position) =
      (sampleSpread.positions[0]?.map fun p => p.index) :=
  (dealCards_spec [sampleFool, sampleAceCups] sampleSpread (fun _ => 0)).2 0
    (by decide)

/-- C5 counterexample: with no placed cards the engine's summary is the
closing sentence alone, although the claim's trigger
`reversedCount ≥ placedCards.length / 2` (that is, `0 ≥ 0 / 2`) holds, so
the claimed reversed-cards clause is missing. -/
theorem generateSummary_empty_counterexample :
    (interpretReading { id := "s", name := "S", positions := [] } [] [] [] none).map
        (fun r => r.overallSummary) =
      .ok "Trust your intuition as you interpret these messages for your path forward." ∧
    ((0 : ℚ) ≥ ((([] : List PlacedCard).length : ℚ) / 2)) ∧
    ("Trust your intuition as you interpret these messages for your path forward." ≠
      "Many reversed cards suggest internal work and reflection are needed. Trust your intuition as you interpret these messages for your path forward.") :=
  ⟨rfl, by norm_num, by decide⟩

/-- C5 (amended): the summary is the fixed-order concatenation of the
major-arcana clause, the suit clause, the reversed-cards clause — whose
trigger additionally requires `reversedCount ≠ 0` and a nonempty reading,
because of the `reversedCount && totalCards &&` truthiness guard — and the
closing sentence; the engine invokes it with `totalCards =
placedCards.length`. -/
theorem generateSummary_spec (mc : Nat) (ds : Option String) (rc tc : Nat) :
    (generateSummary mc ds rc tc =
      (if 3 ≤ mc then "This reading reveals significant life changes and spiritual themes. "
       else if 1 ≤ mc then "Important life lessons and personal growth are highlighted. "
       else "") ++
      ((ds.map fun s => "The focus is on " ++ getSuitTheme s ++ ". ").getD "") ++
      (if rc ≠ 0 ∧ tc ≠ 0 ∧ (rc : ℚ) ≥ (tc : ℚ) / 2 then
        "Many reversed cards suggest internal work and reflection are needed. "
       else "") ++
      "Trust your intuition as you interpret these messages for your path forward.") ∧
    ∀ (placedCards : List PlacedCard) (allCards : List TarotCard)
      (rules : List CombinationRule),
      (generateOverallAnalysis placedCards allCards rules).summary =
        generateSummary
          (generateOverallAnalysis placedCards allCards rules).majorArcanaCount
          (generateOverallAnalysis placedCards allCards rules).dominantSuit
          (generateOverallAnalysis placedCards allCards rules).reversedCount
          placedCards.length := by
  constructor
  · simp only [generateSummary]
    cases ds <;> split_ifs <;>
      simp only [Option.map_none', Option.map_some', Option.getD_none,
        Option.getD_some, String.empty_append, String.append_assoc]
  · intro placedCards allCards rules
    rfl

/-! ### C6 machinery: characterising the stable descending-count sort

The claim describes the sorted tallies by selection: repeatedly take the
first-encountered entry of maximal count.  `extractFirstMax` realises one
such selection step; the lemmas below show the stable insertion sort used
by the engine is exactly iterated selection. -/

/-- The first entry of maximal count (earlier entries win ties), together
with the remaining entries in their original order. -/
def extractFirstMax : List (String × Nat) → Option ((String × Nat) × List (String × Nat))
  | [] => none
  | p :: ps =>
    match extractFirstMax ps with
    | none => some (p, [])
    | some (q, rest) => if q.2 ≤ p.2 then some (p, ps) else some (q, p :: rest)

/-- The claim's「top `n` keys by descending count, ties by first-encounter
order」: repeatedly extract the first-encountered entry of maximal count. -/
def selectTopKeys : Nat → List (String × Nat) → List String
  | 0, _ => []
  | n + 1, l =>
    match extractFirstMax l with
    | none => []
    | some (q, rest) => q.1 :: selectTopKeys n rest

/-- Keys not yet in `seen`, in first-occurrence order. -/
def firstOccAux (seen : List String) : List String → List String
  | [] => []
  | k :: ks => if k ∈ seen then firstOccAux seen ks else k :: firstOccAux (k :: seen) ks

/-- The distinct keys of a list in first-occurrence order. -/
def firstOccurrences (ks : List String) : List String := firstOccAux [] ks

/-- The count stored for `k` in an association list (0 if absent). -/
def lookupCount : List (String × Nat) → String → Nat
  | [], _ => 0
  | p :: ps, k => if p.1 = k then p.2 else lookupCount ps k

lemma extractFirstMax_cons (p : String × Nat) (ps : List (String × Nat)) :
    extractFirstMax (p :: ps) =
      match extractFirstMax ps with
      | none => some (p, [])
      | some (q, rest) => if q.2 ≤ p.2 then some (p, ps) else some (q, p :: rest) := rfl

lemma extractFirstMax_cons_of_none (p : String × Nat) (ps : List (String × Nat))
    (h : extractFirstMax ps = none) : extractFirstMax (p :: ps) = some (p, []) := by
  rw [extractFirstMax_cons, h]

lemma extractFirstMax_cons_of_some (p q : String × Nat) (ps rest : List (String × Nat))
    (h : extractFirstMax ps = some (q, rest)) :
    extractFirstMax (p :: ps) =
      if q.2 ≤ p.2 then some (p, ps) else some (q, p :: rest) := by
  rw [extractFirstMax_cons, h]

lemma extractFirstMax_eq_none (l : List (String × Nat)) :
    extractFirstMax l = none ↔ l = [] := by
  cases l with
  | nil => simp [extractFirstMax]
  | cons p ps =>
    cases hps : extractFirstMax ps with
    | none => simp [extractFirstMax_cons_of_none p ps hps]
    | some qr =>
      obtain ⟨q, rest⟩ := qr
      rw [extractFirstMax_cons_of_some p q ps rest hps]
      by_cases h : q.2 ≤ p.2 <;> simp [h]

lemma sortByCountDesc_append (l : List (String × Nat)) (a : String × Nat) :
    sortByCountDesc (l ++ [a]) = insertByCountDesc a (sortByCountDesc l) := by
  simp [sortByCountDesc, List.foldl_append]

lemma extractFirstMax_append_of_some (a q : String × Nat) :
    ∀ (l rest : List (String × Nat)), extractFirstMax l = some (q, rest) →
      extractFirstMax (l ++ [a]) =
        if q.2 < a.2 then some (a, l) else some (q, rest ++ [a]) := by
  intro l
  induction l generalizing q with
  | nil => intro rest h; cases h
  | cons p ps ih =>
    intro rest h
    cases hps : extractFirstMax ps with
    | none =>
      have hnil : ps = [] := (extractFirstMax_eq_none ps).mp hps
      subst hnil
      rw [extractFirstMax_cons_of_none p [] hps] at h
      simp only [Option.some.injEq, Prod.mk.injEq] at h
      obtain ⟨h1, hr⟩ := h
      subst h1
      subst hr
      have ha : extractFirstMax ([a] : List (String × Nat)) = some (a, []) := rfl
      rw [show (p :: [] : List (String × Nat)) ++ [a] = p :: [a] from rfl,
        extractFirstMax_cons_of_some p a [a] [] ha]
      by_cases h2 : a.2 ≤ p.2
      · have h3 : ¬p.2 < a.2 := by omega
        simp [h2, h3]
      · have h3 : p.2 < a.2 := by omega
        simp [h2, h3]
    | some qr =>
      obtain ⟨q', rest'⟩ := qr
      rw [extractFirstMax_cons_of_some p q' ps rest' hps] at h
      have ihs := ih q' rest' hps
      rw [List.cons_append]
      by_cases hle : q'.2 ≤ p.2
      · rw [if_pos hle] at h
        simp only [Option.some.injEq, Prod.mk.injEq] at h
        obtain ⟨h1, h2⟩ := h
        subst h1
        subst h2
        by_cases h2 : q'.2 < a.2
        · rw [if_pos h2] at ihs
          rw [extractFirstMax_cons_of_some p a (ps ++ [a]) ps ihs]
          by_cases h3 : a.2 ≤ p.2
          · have h4 : ¬p.2 < a.2 := by omega
            simp [h3, h4]
          · have h4 : p.2 < a.2 := by omega
            simp [h3, h4]
        · rw [if_neg h2] at ihs
          rw [extractFirstMax_cons_of_some p q' (ps ++ [a]) (rest' ++ [a]) ihs]
          have h3 : ¬p.2 < a.2 := by omega
          simp [hle, h3]
      · rw [if_neg hle] at h
        simp only [Option.some.injEq, Prod.mk.injEq] at h
        obtain ⟨h1, h2⟩ := h
        subst h1
        subst h2
        by_cases h2 : q'.2 < a.2
        · rw [if_pos h2] at ihs
          rw [extractFirstMax_cons_of_some p a (ps ++ [a]) ps ihs]
          have h3 : ¬a.2 ≤ p.2 := by omega
          simp [h2, h3]
        · rw [if_neg h2] at ihs
          rw [extractFirstMax_cons_of_some p q' (ps ++ [a]) (rest' ++ [a]) ihs]
          have h3 : ¬q'.2 ≤ p.2 := by omega
          simp [h2, h3]

lemma sortByCountDesc_extract (l : List (String × Nat)) (q : String × Nat)
    (rest : List (String × Nat)) (h : extractFirstMax l = some (q, rest)) :
    sortByCountDesc l = q :: sortByCountDesc rest := by
  induction l using List.reverseRecOn generalizing q rest with
  | nil => cases h
  | append_singleton l a ih =>
    rw [sortByCountDesc_append]
    cases hl : extractFirstMax l with
    | none =>
      have hnil : l = [] := (extractFirstMax_eq_none l).mp hl
      subst hnil
      have ha : extractFirstMax ([] ++ [a] : List (String × Nat)) = some (a, []) := rfl
      rw [ha] at h
      simp only [Option.some.injEq, Prod.mk.injEq] at h
      obtain ⟨h1, h2⟩ := h
      subst h1
      subst h2
      rfl
    | some qr =>
      obtain ⟨q', rest'⟩ := qr
      rw [extractFirstMax_append_of_some a q' l rest' hl] at h
      rw [ih q' rest' hl]
      by_cases h2 : q'.2 < a.2
      · rw [if_pos h2] at h
        simp only [Option.some.injEq, Prod.mk.injEq] at h
        obtain ⟨h1, h3⟩ := h
        subst h1
        subst h3
        simp only [insertByCountDesc, if_pos h2]
        rw [ih q' rest' hl]
      · rw [if_neg h2] at h
        simp only [Option.some.injEq, Prod.mk.injEq] at h
        obtain ⟨h1, h3⟩ := h
        subst h1
        subst h3
        simp only [insertByCountDesc, if_neg h2]
        rw [sortByCountDesc_append]

lemma sortByCountDesc_unfold (l : List (String × Nat)) :
    sortByCountDesc l =
      match extractFirstMax l with
      | none => []
      | some (q, rest) => q :: sortByCountDesc rest := by
  cases hl : extractFirstMax l with
  | none =>
    have hnil : l = [] := (extractFirstMax_eq_none l).mp hl
    subst hnil
    rfl
  | some qr =>
    obtain ⟨q, rest⟩ := qr
    exact sortByCountDesc_extract l q rest hl

lemma sortByCountDesc_take_map (k : Nat) :
    ∀ l : List (String × Nat),
      ((sortByCountDesc l).take k).map (fun p => p.1) = selectTopKeys k l := by
  induction k with
  | zero => intro l; rfl
  | succ n ih =>
    intro l
    cases hl : extractFirstMax l with
    | none =>
      have hnil : l = [] := (extractFirstMax_eq_none l).mp hl
      subst hnil
      rfl
    | some qr =>
      obtain ⟨q, rest⟩ := qr
      rw [sortByCountDesc_extract l q rest hl]
      simp only [selectTopKeys, hl, List.take_succ_cons, List.map_cons, ih rest]

lemma sortByCountDesc_head (l : List (String × Nat)) :
    (sortByCountDesc l).head? = (extractFirstMax l).map (fun qr => qr.1) := by
  cases hl : extractFirstMax l with
  | none =>
    have hnil : l = [] := (extractFirstMax_eq_none l).mp hl
    subst hnil
    rfl
  | some qr =>
    obtain ⟨q, rest⟩ := qr
    rw [sortByCountDesc_extract l q rest hl]
    rfl

lemma extractFirstMax_is_max (l : List (String × Nat)) (q : String × Nat)
    (rest : List (String × Nat)) (h : extractFirstMax l = some (q, rest)) :
    ∀ p ∈ l, p.2 ≤ q.2 := by
  induction l generalizing q rest with
  | nil => cases h
  | cons p ps ih =>
    cases hps : extractFirstMax ps with
    | none =>
      have hnil : ps = [] := (extractFirstMax_eq_none ps).mp hps
      subst hnil
      rw [extractFirstMax_cons_of_none p [] hps] at h
      simp only [Option.some.injEq, Prod.mk.injEq] at h
      obtain ⟨h1, h2⟩ := h
      subst h1
      simp
    | some qr =>
      obtain ⟨q', rest'⟩ := qr
      rw [extractFirstMax_cons_of_some p q' ps rest' hps] at h
      by_cases hle : q'.2 ≤ p.2
      · rw [if_pos hle] at h
        simp only [Option.some.injEq, Prod.mk.injEq] at h
        obtain ⟨h1, h2⟩ := h
        subst h1
        intro x hx
        rcases List.mem_cons.mp hx with rfl | hx
        · exact le_refl _
        · exact le_trans (ih q' rest' hps x hx) hle
      · rw [if_neg hle] at h
        simp only [Option.some.injEq, Prod.mk.injEq] at h
        obtain ⟨h1, h2⟩ := h
        subst h1
        intro x hx
        rcases List.mem_cons.mp hx with rfl | hx
        · omega
        · exact ih q' rest' hps x hx

lemma extractFirstMax_decomp (l : List (String × Nat)) (q : String × Nat)
    (rest : List (String × Nat)) (h : extractFirstMax l = some (q, rest)) :
    ∃ l₁ l₂, l = l₁ ++ q :: l₂ ∧ rest = l₁ ++ l₂ ∧ ∀ p ∈ l₁, p.2 < q.2 := by
  induction l generalizing q rest with
  | nil => cases h
  | cons p ps ih =>
    cases hps : extractFirstMax ps with
    | none =>
      have hnil : ps = [] := (extractFirstMax_eq_none ps).mp hps
      subst hnil
      rw [extractFirstMax_cons_of_none p [] hps] at h
      simp only [Option.some.injEq, Prod.mk.injEq] at h
      obtain ⟨h1, h2⟩ := h
      subst h1
      subst h2
      exact ⟨[], [], rfl, rfl, by simp⟩
    | some qr =>
      obtain ⟨q', rest'⟩ := qr
      rw [extractFirstMax_cons_of_some p q' ps rest' hps] at h
      by_cases hle : q'.2 ≤ p.2
      · rw [if_pos hle] at h
        simp only [Option.some.injEq, Prod.mk.injEq] at h
        obtain ⟨h1, h2⟩ := h
        subst h1
        subst h2
        exact ⟨[], ps, rfl, rfl, by simp⟩
      · rw [if_neg hle] at h
        simp only [Option.some.injEq, Prod.mk.injEq] at h
        obtain ⟨h1, h2⟩ := h
        subst h1
        subst h2
        obtain ⟨l₁, l₂, hl1, hl2, hl3⟩ := ih q' rest' hps
        refine ⟨p :: l₁, l₂, by rw [hl1]; rfl, by rw [hl2]; rfl, ?_⟩
        intro x hx
        rcases List.mem_cons.mp hx with rfl | hx
        · omega
        · exact hl3 x hx

/-! ### C6 machinery: the tally lists record first-encounter order and
occurrence counts -/

lemma bumpCount_keys (m : List (String × Nat)) (k : String) :
    ((bumpCount m k).map fun p => p.1) =
      if k ∈ m.map (fun p => p.1) then m.map (fun p => p.1)
      else (m.map fun p => p.1) ++ [k] := by
  unfold bumpCount
  by_cases h : k ∈ m.map fun p => p.1
  · have hany : (m.any fun p => p.1 == k) = true := by
      rw [List.any_eq_true]
      obtain ⟨p, hp, hpk⟩ := List.mem_map.mp h
      exact ⟨p, hp, by simp [hpk]⟩
    rw [if_pos h]
    simp only [hany, if_true, List.map_map]
    apply List.map_congr_left
    intro p _
    simp only [Function.comp_apply]
    by_cases hpk : p.1 = k <;> simp [hpk]
  · have hany : (m.any fun p => p.1 == k) = false := by
      rw [List.any_eq_false]
      intro p hp
      simp only [beq_iff_eq]
      intro hpk
      exact h (List.mem_map.mpr ⟨p, hp, hpk⟩)
    rw [if_neg h]
    simp [hany]

lemma firstOccAux_congr : ∀ (ks s₁ s₂ : List String),
    (∀ x, x ∈ s₁ ↔ x ∈ s₂) → firstOccAux s₁ ks = firstOccAux s₂ ks := by
  intro ks
  induction ks with
  | nil => intro s₁ s₂ _; rfl
  | cons k ks ih =>
    intro s₁ s₂ hmem
    simp only [firstOccAux]
    by_cases h : k ∈ s₁
    · rw [if_pos h, if_pos ((hmem k).mp h)]
      exact ih s₁ s₂ hmem
    · rw [if_neg h, if_neg (fun hc => h ((hmem k).mpr hc))]
      congr 1
      apply ih
      intro x
      simp [hmem x]

lemma tallyAux_keys : ∀ (ks : List String) (acc : List (String × Nat)),
    ((ks.foldl bumpCount acc).map fun p => p.1) =
      (acc.map fun p => p.1) ++ firstOccAux (acc.map fun p => p.1) ks := by
  intro ks
  induction ks with
  | nil => intro acc; simp [firstOccAux]
  | cons k ks ih =>
    intro acc
    rw [List.foldl_cons, ih (bumpCount acc k), bumpCount_keys]
    by_cases h : k ∈ acc.map fun p => p.1
    · rw [if_pos h]
      simp only [firstOccAux, if_pos h]
    · rw [if_neg h]
      simp only [firstOccAux, if_neg h]
      rw [firstOccAux_congr ks ((acc.map fun p => p.1) ++ [k])
        (k :: acc.map fun p => p.1) (by intro x; simp [or_comm])]
      simp [List.append_assoc]

lemma tallyKeys_keys (ks : List String) :
    ((tallyKeys ks).map fun p => p.1) = firstOccurrences ks := by
  have h := tallyAux_keys ks []
  simpa [tallyKeys, firstOccurrences] using h

lemma firstOccurrences_eq_nil (ks : List String) :
    firstOccurrences ks = [] ↔ ks = [] := by
  cases ks with
  | nil => simp [firstOccurrences, firstOccAux]
  | cons k ks => simp [firstOccurrences, firstOccAux]

lemma tallyKeys_eq_nil (ks : List String) : tallyKeys ks = [] ↔ ks = [] := by
  constructor
  · intro h
    have hk := tallyKeys_keys ks
    rw [h] at hk
    simp only [List.map_nil] at hk
    exact (firstOccurrences_eq_nil ks).mp hk.symm
  · intro h
    subst h
    rfl

lemma lookupCount_map_update_of_ne (m : List (String × Nat)) (k k' : String)
    (hne : k' ≠ k) :
    lookupCount (m.map fun p => if p.1 = k then (p.1, p.2 + 1) else p) k' =
      lookupCount m k' := by
  induction m with
  | nil => rfl
  | cons p ps ih =>
    simp only [List.map_cons]
    by_cases hpk : p.1 = k
    · have hkk' : ¬k = k' := fun hc => hne hc.symm
      simp [lookupCount, hpk, hkk', ih]
    · by_cases hpk' : p.1 = k' <;> simp [lookupCount, hpk, hpk', hne, ih]

lemma lookupCount_map_update_self (m : List (String × Nat)) (k : String)
    (h : ∃ p ∈ m, p.1 = k) :
    lookupCount (m.map fun p => if p.1 = k then (p.1, p.2 + 1) else p) k =
      lookupCount m k + 1 := by
  induction m with
  | nil => obtain ⟨p, hp, _⟩ := h; cases hp
  | cons p ps ih =>
    simp only [List.map_cons]
    by_cases hpk : p.1 = k
    · simp [lookupCount, hpk]
    · have h' : ∃ q ∈ ps, q.1 = k := by
        obtain ⟨q, hq, hqk⟩ := h
        rcases List.mem_cons.mp hq with rfl | hq
        · exact absurd hqk hpk
        · exact ⟨q, hq, hqk⟩
      simp [lookupCount, hpk, ih h']

lemma lookupCount_append_absent (m : List (String × Nat)) (k k' : String)
    (h : ∀ p ∈ m, p.1 ≠ k) :
    lookupCount (m ++ [(k, 1)]) k' =
      lookupCount m k' + if k' = k then 1 else 0 := by
  induction m with
  | nil =>
    simp only [List.nil_append, lookupCount]
    by_cases hk : k = k'
    · simp [hk]
    · have hk' : ¬k' = k := fun hc => hk hc.symm
      simp [hk, hk']
  | cons p ps ih =>
    have hp : p.1 ≠ k := h p (List.mem_cons_self p ps)
    have h' : ∀ q ∈ ps, q.1 ≠ k := fun q hq => h q (List.mem_cons_of_mem p hq)
    by_cases hpk : p.1 = k'
    · have hkk : ¬k' = k := fun hc => hp (hpk.trans hc)
      simp [lookupCount, hpk, hkk]
    · simp [lookupCount, hpk, ih h']

lemma bumpCount_lookup (m : List (String × Nat)) (k k' : String) :
    lookupCount (bumpCount m k) k' = lookupCount m k' + if k' = k then 1 else 0 := by
  unfold bumpCount
  cases hany : (m.any fun p => p.1 == k) with
  | true =>
    simp only [hany, if_true]
    by_cases hk : k' = k
    · subst hk
      have hex : ∃ p ∈ m, p.1 = k' := by
        obtain ⟨p, hp, hpk⟩ := List.any_eq_true.mp hany
        exact ⟨p, hp, by simpa using hpk⟩
      simp [lookupCount_map_update_self m k' hex]
    · simp [lookupCount_map_update_of_ne m k k' hk, hk]
  | false =>
    simp only [hany, Bool.false_eq_true, if_false]
    have habs : ∀ p ∈ m, p.1 ≠ k := by
      intro p hp hc
      have hfalse := List.any_eq_false.mp hany p hp
      simp [hc] at hfalse
    exact lookupCount_append_absent m k k' habs

lemma tallyAux_lookup : ∀ (ks : List String) (acc : List (String × Nat)) (k : String),
    lookupCount (ks.foldl bumpCount acc) k = lookupCount acc k + ks.count k := by
  intro ks
  induction ks with
  | nil =>
    intro acc k
    simp
  | cons k'' ks ih =>
    intro acc k
    rw [List.foldl_cons, ih (bumpCount acc k'') k, bumpCount_lookup, List.count_cons]
    by_cases h : k = k''
    · subst h
      simp
      omega
    · have h' : ¬(k'' == k) = true := by
        simp only [beq_iff_eq]
        exact fun hc => h hc.symm
      simp [h, h']

lemma tallyKeys_lookup (ks : List String) (k : String) :
    lookupCount (tallyKeys ks) k = ks.count k := by
  have h := tallyAux_lookup ks [] k
  simpa [tallyKeys, lookupCount] using h

lemma generateOverallAnalysis_dominantSuit_eq (placedCards : List PlacedCard)
    (allCards : List TarotCard) (rules : List CombinationRule) :
    (generateOverallAnalysis placedCards allCards rules).dominantSuit =
      ((sortByCountDesc (tallyKeys ((resolvedCards placedCards allCards).filterMap
        fun c => c.suit))).head?).map (fun p => p.1) := rfl

lemma generateOverallAnalysis_keywords_eq (placedCards : List PlacedCard)
    (allCards : List TarotCard) (rules : List CombinationRule) :
    (generateOverallAnalysis placedCards allCards rules).keywords =
      ((sortByCountDesc (tallyKeys ((resolvedCards placedCards allCards).flatMap
        fun c => c.keywords))).take 5).map (fun p => p.1) := rfl

/-- C6: `dominantSuit` is the first-encountered suit of maximal count in
the suit tally (`none` exactly when no resolved card has a suit), and
`keywords` is the top-5 selection by descending count with first-encounter
tie-break; the tally lists themselves list the distinct suits/keywords in
first-occurrence order with their exact occurrence counts, so the
stable-sorted orders in the claim are inherited from iteration order, not
from any alphabetical comparison. -/
theorem generateOverallAnalysis_dominant_and_keywords (placedCards : List PlacedCard)
    (allCards : List TarotCard) (rules : List CombinationRule) :
    ((generateOverallAnalysis placedCards allCards rules).dominantSuit =
      (extractFirstMax (tallyKeys ((resolvedCards placedCards allCards).filterMap
        fun c => c.suit))).map (fun qr => qr.1.1)) ∧
    ((generateOverallAnalysis placedCards allCards rules).dominantSuit = none ↔
      ∀ c ∈ resolvedCards placedCards allCards, c.suit = none) ∧
    ((generateOverallAnalysis placedCards allCards rules).keywords =
      selectTopKeys 5 (tallyKeys ((resolvedCards placedCards allCards).flatMap
        fun c => c.keywords))) ∧
    (∀ (l : List (String × Nat)) (q : String × Nat) (rest : List (String × Nat)),
      extractFirstMax l = some (q, rest) →
        (∀ p ∈ l, p.2 ≤ q.2) ∧
        ∃ l₁ l₂, l = l₁ ++ q :: l₂ ∧ rest = l₁ ++ l₂ ∧ ∀ p ∈ l₁, p.2 < q.2) ∧
    (((tallyKeys ((resolvedCards placedCards allCards).filterMap fun c => c.suit)).map
        fun p => p.1) =
      firstOccurrences ((resolvedCards placedCards allCards).filterMap fun c => c.suit)) ∧
    (∀ s, lookupCount (tallyKeys ((resolvedCards placedCards allCards).filterMap
        fun c => c.suit)) s =
      ((resolvedCards placedCards allCards).filterMap fun c => c.suit).count s) ∧
    (((tallyKeys ((resolvedCards placedCards allCards).flatMap fun c => c.keywords)).map
        fun p => p.1) =
      firstOccurrences ((resolvedCards placedCards allCards).flatMap fun c => c.keywords)) ∧
    (∀ k, lookupCount (tallyKeys ((resolvedCards placedCards allCards).flatMap
        fun c => c.keywords)) k =
      ((resolvedCards placedCards allCards).flatMap fun c => c.keywords).count k) := by
  refine ⟨?_, ?_, ?_, ?_, ?_, ?_, ?_, ?_⟩
  · rw [generateOverallAnalysis_dominantSuit_eq placedCards allCards rules,
      sortByCountDesc_head, Option.map_map]
    rfl
  · rw [generateOverallAnalysis_dominantSuit_eq placedCards allCards rules,
      sortByCountDesc_head, Option.map_map, Option.map_eq_none']
    rw [extractFirstMax_eq_none, tallyKeys_eq_nil, List.filterMap_eq_nil_iff]
  · rw [generateOverallAnalysis_keywords_eq placedCards allCards rules,
      sortByCountDesc_take_map]
  · intro l q rest h
    exact ⟨extractFirstMax_is_max l q rest h, extractFirstMax_decomp l q rest h⟩
  · exact tallyKeys_keys _
  · intro s
    exact tallyKeys_lookup _ s
  · exact tallyKeys_keys _
  · intro k
    exact tallyKeys_lookup _ k

/-- C6 witness: the sample two-card reading has dominant suit `cups`, as
the selection description predicts. -/
theorem generateOverallAnalysis_dominant_and_keywords_witness :
    (generateOverallAnalysis [samplePlacedA, samplePlacedB]
        [sampleFool, sampleAceCups] []).dominantSuit = some "cups" ∧
    (generateOverallAnalysis [samplePlacedA, samplePlacedB]
        [sampleFool, sampleAceCups] []).keywords =
      selectTopKeys 5 (tallyKeys (((resolvedCards [samplePlacedA, samplePlacedB]
        [sampleFool, sampleAceCups]).flatMap fun c => c.keywords))) := by
  constructor
  · rw [(generateOverallAnalysis_dominant_and_keywords [samplePlacedA, samplePlacedB]
      [sampleFool, sampleAceCups] []).1]
    rfl
  · exact (generateOverallAnalysis_dominant_and_keywords [samplePlacedA, samplePlacedB]
      [sampleFool, sampleAceCups] []).2.2.1

end TarotTeller
